import Mathlib

set_option maxRecDepth 8000

namespace AIAgent

/-!  Shallow embedding of the AI-VScode-Extension agent core
     (src/agent.ts, src/safety.ts, src/cache.ts, src/storage.ts).

     Machine-level conventions: timestamps are natural numbers of
     milliseconds; the workspace filesystem is a partial map from
     absolute path strings to file contents; Node's POSIX path
     functions (`path.resolve`, `path.relative`, `path.join`,
     `path.isAbsolute`) are modelled over explicit character lists. -/

/-! ## String helpers (structural, executable) -/

/-- Boolean prefix test on strings (JS `String.startsWith`). -/
def strStartsWith (s p : String) : Bool := p.data.isPrefixOf s.data

/-- Contiguous-sublist test on character lists. -/
def subListOf : List Char → List Char → Bool
  | n, [] => n.isEmpty
  | n, c :: t => n.isPrefixOf (c :: t) || subListOf n t

/-- Boolean substring test on strings (JS `String.includes`). -/
def strIncludes (s sub : String) : Bool := subListOf sub.data s.data

/-! ## POSIX path model (Node `path` module) -/

/-- `path.isAbsolute` for POSIX paths. -/
def isAbsStr (s : String) : Bool :=
  match s.data with
  | [] => false
  | c :: _ => c = '/'

/-- Split a character list into path segments at `/`, dropping empty
    segments (as Node's normalisation does). -/
def splitSegsAux : List Char → List Char → List String
  | cur, [] => if cur.isEmpty then [] else [String.mk cur.reverse]
  | cur, c :: rest =>
    if c = '/' then
      if cur.isEmpty then splitSegsAux [] rest
      else String.mk cur.reverse :: splitSegsAux [] rest
    else splitSegsAux (c :: cur) rest

def splitSegs (s : String) : List String := splitSegsAux [] s.data

/-- Node path normalisation over segments: drops `.`; `..` pops the
    previous segment, except that in absolute paths a `..` at the root
    is dropped and in relative paths leading `..`s accumulate. -/
def normSegs (abs : Bool) : List String → List String → List String
  | acc, [] => acc.reverse
  | acc, seg :: rest =>
    if seg = "." then normSegs abs acc rest
    else if seg = ".." then
      match acc with
      | [] => if abs then normSegs abs [] rest else normSegs abs [".."] rest
      | top :: accTail =>
        if top = ".." then normSegs abs (".." :: top :: accTail) rest
        else normSegs abs accTail rest
    else normSegs abs (seg :: acc) rest

/-- Join segments with `/` (no leading slash). -/
def joinSegs : List String → String
  | [] => ""
  | [s] => s
  | s :: rest => s ++ "/" ++ joinSegs rest

/-- Segments of `path.resolve(p)` run with current working directory
    `cwd` (assumed absolute, as `process.cwd()` always is). -/
def resolveSegs (cwd p : String) : List String :=
  normSegs true [] (if isAbsStr p then splitSegs p else splitSegs cwd ++ splitSegs p)

/-- Node `path.resolve(p)` against working directory `cwd`. -/
def pathResolve (cwd p : String) : String :=
  "/" ++ joinSegs (resolveSegs cwd p)

/-- Relative-segment computation after both sides are resolved:
    drop the common prefix, then one `..` per remaining source segment
    followed by the remaining target segments. -/
def relSegs : List String → List String → List String
  | [], ts => ts
  | fseg :: fs, [] => (fseg :: fs).map fun _ => ".."
  | fseg :: fs, tseg :: ts =>
    if fseg = tseg then relSegs fs ts
    else ((fseg :: fs).map fun _ => "..") ++ tseg :: ts

/-- Node `path.relative(f, t)` (POSIX), resolving both arguments
    against `cwd` first. -/
def pathRelative (cwd f t : String) : String :=
  joinSegs (relSegs (resolveSegs cwd f) (resolveSegs cwd t))

/-- Node `path.join(a, b)` (POSIX): concatenate then normalise. -/
def pathJoin (a b : String) : String :=
  let abs := isAbsStr a
  let segs := normSegs abs [] (splitSegs a ++ splitSegs b)
  if abs then "/" ++ joinSegs segs
  else if segs.isEmpty then "." else joinSegs segs

/-! ## Safety gate: path validation (src/safety.ts, `Safety.isPathSafe`) -/

/-- Result shape of the safety predicates: `{ safe: boolean; reason?: string }`. -/
structure SafeResult where
  safe : Bool
  reason : Option String
deriving DecidableEq, Repr

/-- The `dangerous` name list inside `isPathSafe`. -/
def dangerousPaths : List String :=
  [".git", "node_modules/.bin", ".env", ".env.local", ".env.production"]

/-- One iteration's match test:
    `relative.startsWith(pattern) || relative.includes("/" + pattern) ||
     relative.includes("\\" + pattern)`. -/
def dangerousHit (rel pat : String) : Bool :=
  strStartsWith rel pat || strIncludes rel ("/" ++ pat) || strIncludes rel ("\\" ++ pat)

/-- The `for (const pattern of dangerous)` loop: a match only returns
    when the pattern is `.git`; every other match falls through. -/
def dangerousCheck : List String → String → Option SafeResult
  | [], _ => none
  | pat :: rest, rel =>
    if dangerousHit rel pat then
      if pat = ".git" then some ⟨false, some "Cannot modify .git directory"⟩
      else dangerousCheck rest rel
    else dangerousCheck rest rel

/-- `Safety.isPathSafe(filePath)` with workspace root `root`, run in
    working directory `cwd`. -/
def isPathSafe (cwd root filePath : String) : SafeResult :=
  let resolved := pathResolve cwd filePath
  let rel := pathRelative cwd root resolved
  if strStartsWith rel ".." || isAbsStr rel then
    ⟨false, some "Path is outside workspace"⟩
  else
    match dangerousCheck dangerousPaths rel with
    | some r => r
    | none => ⟨true, none⟩

/-! ## Safety gate: change history and undo (src/safety.ts) -/

/-- `FileChange` record. -/
structure FileChange where
  path : String
  oldContent : Option String
  newContent : String
  timestamp : Nat
deriving DecidableEq, Repr

/-- The workspace filesystem: a partial map from absolute paths to
    file contents (`none` = file does not exist). -/
def FS : Type := String → Option String

/-- Mutable state owned by the `Safety` instance: the bounded change
    history plus the backup store (the `.ai-agent/backups` directory,
    which the spec assigns to the safety gate's exclusive ownership). -/
structure SafetyState where
  history : List FileChange
  backups : List (String × String)

/-- `maxHistorySize = 50`. -/
def maxHistorySize : Nat := 50

/-- `Safety.recordChange`: push, then drop the oldest entry when the
    bound is exceeded. -/
def recordChange (st : SafetyState) (p : String) (old : Option String)
    (new : String) (ts : Nat) : SafetyState :=
  let h := st.history ++ [⟨p, old, new, ts⟩]
  { st with history := if maxHistorySize < h.length then h.drop 1 else h }

/-- Return value plus post-state of `Safety.undoLastChange`. -/
structure UndoOut where
  success : Bool
  message : String
  state : SafetyState
  fs : FS

/-- `Safety.undoLastChange`: pop the most recent change; a recorded
    `null` prior content deletes the file, otherwise the prior content
    is rewritten verbatim. -/
def undoLastChange (st : SafetyState) (fs : FS) : UndoOut :=
  match st.history.getLast? with
  | none => ⟨false, "No changes to undo", st, fs⟩
  | some last =>
    let st' := { st with history := st.history.dropLast }
    match last.oldContent with
    | none =>
      if (fs last.path).isSome then
        ⟨true, "Deleted newly created file: " ++ last.path, st',
          fun q => if q = last.path then none else fs q⟩
      else ⟨true, "Undo complete", st', fs⟩
    | some old =>
      ⟨true, "Restored: " ++ last.path, st',
        fun q => if q = last.path then some old else fs q⟩

/-- Separator flattening used in backup names
    (`relative.replace(/[\/\\]/g, '_')`). -/
def flattenSeps (s : String) : String :=
  String.mk (s.data.map fun c => if c = '/' || c = '\\' then '_' else c)

/-- `Safety.backupFile`: copy the current content (if the file exists)
    into the backup store under `timestamp-flattenedRelativePath`. -/
def backupFile (st : SafetyState) (fs : FS) (cwd root fp : String) (ts : Nat) :
    SafetyState :=
  match fs fp with
  | none => st
  | some c =>
    { st with backups :=
        st.backups ++ [(toString ts ++ "-" ++ flattenSeps (pathRelative cwd root fp), c)] }

/-! ## The `write_file` tool (src/agent.ts, `Agent.executeTool`) -/

/-- `Agent.resolvePath`. -/
def resolvePathAgent (root p : String) : String :=
  if p = "" then root
  else if isAbsStr p then p
  else pathJoin root p

/-- The configuration flags consulted by `write_file`. -/
structure WriteConfig where
  confirmBeforeWrite : Bool
  backupBeforeWrite : Bool

/-- Return value plus post-state of the `write_file` tool case. -/
structure WriteOut where
  result : String
  state : SafetyState
  fs : FS

/-- The `case 'write_file'` branch of `Agent.executeTool`:
    resolve, safety-check, read the prior content, optionally
    confirm/backup, write, and record the change.  `userConfirm`
    models the user's answer to the confirmation dialog. -/
def writeFileTool (cwd root : String) (cfg : WriteConfig) (userConfirm : Bool)
    (st : SafetyState) (fs : FS) (pathArg content : String) (ts : Nat) : WriteOut :=
  let filePath := resolvePathAgent root pathArg
  let check := isPathSafe cwd root filePath
  if check.safe = false then
    ⟨"Error: " ++ check.reason.getD "", st, fs⟩
  else
    let oldContent := fs filePath
    if cfg.confirmBeforeWrite && !userConfirm then
      ⟨"Write cancelled by user", st, fs⟩
    else
      let st1 := if oldContent.isSome && cfg.backupBeforeWrite
                 then backupFile st fs cwd root filePath ts else st
      let fs1 : FS := fun q => if q = filePath then some content else fs q
      let st2 := recordChange st1 filePath oldContent content ts
      ⟨"✓ Written: " ++ pathArg, st2, fs1⟩

/-! ## Cache (src/cache.ts) -/

/-- `CacheEntry<T>`. -/
structure CacheEntry (α : Type) where
  value : α
  timestamp : Nat
  ttl : Nat
deriving DecidableEq, Repr

/-- The JS `Map` backing `Cache.cache`, as an insertion-ordered
    association list. -/
structure CacheMap (α : Type) where
  entries : List (String × CacheEntry α)
deriving DecidableEq, Repr

/-- JS `Map.get`. -/
def mapGet (m : CacheMap α) (k : String) : Option (CacheEntry α) :=
  (m.entries.find? fun p => p.1 = k).map Prod.snd

/-- JS `Map.set`: replace in place when the key exists (preserving
    insertion order), otherwise append. -/
def mapSet (m : CacheMap α) (k : String) (e : CacheEntry α) : CacheMap α :=
  if m.entries.any (fun p => p.1 = k) then
    ⟨m.entries.map fun p => if p.1 = k then (k, e) else p⟩
  else ⟨m.entries ++ [(k, e)]⟩

/-- JS `Map.delete`. -/
def mapDelete (m : CacheMap α) (k : String) : CacheMap α :=
  ⟨m.entries.filter fun p => ¬(p.1 = k)⟩

namespace Cache

/-- `Cache.get<T>(key)` at wall-clock time `now`: lazily evicts an
    expired entry (`Date.now() - entry.timestamp > entry.ttl`) and
    returns the value otherwise, together with the post-state. -/
def get (now : Nat) (m : CacheMap α) (key : String) : Option α × CacheMap α :=
  match mapGet m key with
  | none => (none, m)
  | some e =>
    if e.ttl < now - e.timestamp then (none, mapDelete m key)
    else (some e.value, m)

/-- `Cache.set<T>(key, value, ttlMs)` at time `now`. -/
def set (now : Nat) (m : CacheMap α) (key : String) (value : α) (ttlMs : Nat) :
    CacheMap α :=
  mapSet m key ⟨value, now, ttlMs⟩

/-- `Cache.set` with the `ttlMs` argument omitted (`ttlMs = 60000`). -/
def setDefault (now : Nat) (m : CacheMap α) (key : String) (value : α) :
    CacheMap α :=
  set now m key value 60000

/-- The value shape stored by the file cache: `{ content, mtime }`. -/
structure FileEntry where
  content : String
  mtime : Nat
deriving DecidableEq, Repr

/-- `Cache.setFile(filePath, content)` at time `now`; `statMtime` is
    the result of `fs.statSync(filePath).mtimeMs` (`none` models a
    thrown stat error, absorbed by the `catch`).  Stores under
    `file:` + workspace-relative path with a 5-minute TTL. -/
def setFile (now : Nat) (m : CacheMap FileEntry) (cwd root fp content : String)
    (statMtime : Option Nat) : CacheMap FileEntry :=
  match statMtime with
  | none => m
  | some mt => set now m ("file:" ++ pathRelative cwd root fp) ⟨content, mt⟩ 300000

/-- `Cache.getFile(filePath)` at time `now`; `statMtime` is the
    modification time observed at read time.  A TTL-valid entry whose
    recorded mtime differs from the observed one is bypassed (returns
    `null`) without being removed.  The returned map is the post-state
    (the inner `get` may have evicted a TTL-expired entry). -/
def getFile (now : Nat) (m : CacheMap FileEntry) (cwd root fp : String)
    (statMtime : Option Nat) : Option String × CacheMap FileEntry :=
  let key := "file:" ++ pathRelative cwd root fp
  match get now m key with
  | (none, m') => (none, m')
  | (some e, m') =>
    match statMtime with
    | none => (none, m')
    | some mt => if mt = e.mtime then (some e.content, m') else (none, m')

end Cache

/-! ## Memory store and the `forget` tool (src/storage.ts, src/agent.ts) -/

/-- `Storage.removeMemory(index)`: splice out the fact at `index` when
    `0 <= index < facts.length`; otherwise leave the store unchanged.
    The persisted `memory.json` round-trip is modelled as direct state
    passing of the fact list. -/
def removeMemory (facts : List String) (index : Int) : Bool × List String :=
  if 0 ≤ index ∧ index < facts.length then (true, facts.eraseIdx index.toNat)
  else (false, facts)

/-- JS string interpolation of the raw `args.index` value
    (`undefined` when the argument is absent). -/
def showIdx : Option Int → String
  | none => "undefined"
  | some n => toString n

/-- The JS truthiness default `args.index || 1` (absent and `0` are
    falsy). -/
def forgetFallback : Option Int → Int
  | none => 1
  | some n => if n = 0 then 1 else n

/-- The `case 'forget'` branch of `Agent.executeTool`:
    `const idx = (args.index || 1) - 1` followed by `removeMemory`. -/
def forgetTool (facts : List String) (index : Option Int) : String × List String :=
  let idx := forgetFallback index - 1
  match removeMemory facts idx with
  | (true, facts') => ("✓ Forgot item " ++ showIdx index, facts')
  | (false, facts') => ("Error: Invalid index " ++ showIdx index, facts')

/-! ## Regular expressions (JS `RegExp.test` semantics)

    A small derivative-based matcher.  JS `re.test(s)` searches for a
    match anywhere in `s`; an unanchored side is therefore wrapped in
    an unrestricted `anyChar*`, while `^`/`$` pin the corresponding
    side.  The `i` flag is modelled by lowercasing the subject (the
    pattern atoms below are already lowercase); the blocklist subjects
    are ASCII commands, where `Char.toLower` agrees with JS. -/

inductive RE where
  | emp
  | eps
  | cls (p : Char → Bool)
  | cat (r s : RE)
  | alt (r s : RE)
  | star (r : RE)

def nullable : RE → Bool
  | .emp => false
  | .eps => true
  | .cls _ => false
  | .cat r s => nullable r && nullable s
  | .alt r s => nullable r || nullable s
  | .star _ => true

/-- Size-controlling concatenation. -/
def catS : RE → RE → RE
  | .emp, _ => .emp
  | _, .emp => .emp
  | .eps, s => s
  | r, .eps => r
  | r, s => .cat r s

/-- Size-controlling alternation. -/
def altS : RE → RE → RE
  | .emp, s => s
  | r, .emp => r
  | r, s => .alt r s

def deriv (c : Char) : RE → RE
  | .emp => .emp
  | .eps => .emp
  | .cls p => if p c then .eps else .emp
  | .cat r s =>
    if nullable r then altS (catS (deriv c r) s) (deriv c s)
    else catS (deriv c r) s
  | .alt r s => altS (deriv c r) (deriv c s)
  | .star r => catS (deriv c r) (.star r)

def matchRE (r : RE) (cs : List Char) : Bool :=
  nullable (cs.foldl (fun acc c => deriv c acc) r)

/-- Literal character. -/
def chr (c : Char) : RE := .cls fun x => x = c

/-- Literal string. -/
def lit (s : String) : RE := s.data.foldr (fun c r => .cat (chr c) r) .eps

/-- JS `\s` (the ASCII part plus NBSP/BOM; command subjects are ASCII). -/
def isJsWs (c : Char) : Bool :=
  c = ' ' || c = '\t' || c = '\n' || c = '\r' || c = '\x0b' || c = '\x0c' ||
  c = ' ' || c = '﻿'

def wsp : RE := .cls isJsWs

/-- JS `.` (any character except line terminators). -/
def dot : RE := .cls fun c => !(c = '\n' || c = '\r' || c = ' ' || c = ' ')

/-- Truly any character (used for the implicit unanchored search). -/
def anyChar : RE := .cls fun _ => true

def opt (r : RE) : RE := .alt r .eps

def plus (r : RE) : RE := .cat r (.star r)

def seq (l : List RE) : RE := l.foldr .cat .eps

/-- `[\/\\]` -/
def slashCls : RE := .cls fun c => c = '/' || c = '\\'

/-- One blocklist entry: the compiled pattern (with anchor wrapping
    already applied) plus its `i` flag. -/
structure JsRegex where
  re : RE
  ignoreCase : Bool

/-- Wrap a core pattern according to its `^`/`$` anchors. -/
def jsPattern (anchStart anchEnd ic : Bool) (core : RE) : JsRegex :=
  ⟨.cat (if anchStart then .eps else .star anyChar)
     (.cat core (if anchEnd then .eps else .star anyChar)), ic⟩

/-- `RegExp.test` at a trimmed subject. -/
def testJs (p : JsRegex) (s : String) : Bool :=
  matchRE p.re (if p.ignoreCase then s.data.map Char.toLower else s.data)

/-- `Safety.dangerousCommands`, in source order.  Each entry is the
    translation of the corresponding JS literal. -/
def dangerousCommands : List JsRegex :=
  [ -- /^rm\s+(-rf?|--recursive).*[\/\\]$/i
    jsPattern true true true
      (seq [lit "rm", plus wsp,
            .alt (.cat (lit "-r") (opt (chr 'f'))) (lit "--recursive"),
            .star dot, slashCls]),
    -- /^rm\s+-rf?\s*[\/\\]$/i
    jsPattern true true true
      (seq [lit "rm", plus wsp, lit "-r", opt (chr 'f'), .star wsp, slashCls]),
    -- /^del\s+[\/\\]\*|^del\s+\*\.\*/i
    jsPattern true false true
      (.alt (seq [lit "del", plus wsp, slashCls, chr '*'])
            (seq [lit "del", plus wsp, chr '*', chr '.', chr '*'])),
    -- /^format\s+[a-z]:/i
    jsPattern true false true
      (seq [lit "format", plus wsp, .cls (fun c => 'a' ≤ c && c ≤ 'z'), chr ':']),
    -- /^mkfs/i
    jsPattern true false true (lit "mkfs"),
    -- /^dd\s+.*of=/i
    jsPattern true false true (seq [lit "dd", plus wsp, .star dot, lit "of="]),
    -- /^:\(\)\s*\{\s*:\|:\s*&\s*\}/   (fork bomb; braces written via code points)
    jsPattern true false false
      (seq [chr ':', chr '(', chr ')', .star wsp, chr (Char.ofNat 123), .star wsp,
            chr ':', chr '|', chr ':', .star wsp, chr '&', .star wsp,
            chr (Char.ofNat 125)]),
    -- /^chmod\s+(-R\s+)?777\s+[\/\\]/i
    jsPattern true false true
      (seq [lit "chmod", plus wsp, opt (seq [lit "-r", plus wsp]),
            lit "777", plus wsp, slashCls]),
    -- /^chown\s+-R.*[\/\\]$/i
    jsPattern true true true
      (seq [lit "chown", plus wsp, lit "-r", .star dot, slashCls]),
    -- />\s*\/dev\/sd[a-z]/i
    jsPattern false false true
      (seq [chr '>', .star wsp, lit "/dev/sd", .cls (fun c => 'a' ≤ c && c ≤ 'z')]),
    -- /^shutdown/i
    jsPattern true false true (lit "shutdown"),
    -- /^reboot/i
    jsPattern true false true (lit "reboot"),
    -- /^halt/i
    jsPattern true false true (lit "halt"),
    -- /^init\s+[06]/i
    jsPattern true false true
      (seq [lit "init", plus wsp, .cls (fun c => c = '0' || c = '6')]),
    -- /^pkill\s+-9\s+-1/i
    jsPattern true false true
      (seq [lit "pkill", plus wsp, lit "-9", plus wsp, lit "-1"]),
    -- /^killall\s+-9/i
    jsPattern true false true (seq [lit "killall", plus wsp, lit "-9"]),
    -- /^taskkill\s+\/f\s+\/im\s+\*/i
    jsPattern true false true
      (seq [lit "taskkill", plus wsp, lit "/f", plus wsp, lit "/im", plus wsp, chr '*']),
    -- /\|\s*sh\s*$/i
    jsPattern false true true (seq [chr '|', .star wsp, lit "sh", .star wsp]),
    -- /\|\s*bash\s*$/i
    jsPattern false true true (seq [chr '|', .star wsp, lit "bash", .star wsp]),
    -- /curl.*\|\s*(ba)?sh/i
    jsPattern false false true
      (seq [lit "curl", .star dot, chr '|', .star wsp, opt (lit "ba"), lit "sh"]),
    -- /wget.*\|\s*(ba)?sh/i
    jsPattern false false true
      (seq [lit "wget", .star dot, chr '|', .star wsp, opt (lit "ba"), lit "sh"]) ]

/-- JS `String.trim` (whitespace and line terminators, both ends). -/
def trimStr (s : String) : String :=
  String.mk (((s.data.dropWhile isJsWs).reverse.dropWhile isJsWs).reverse)

/-- `Safety.isCommandSafe(cmd)`: first blocklist match blocks with the
    generic reason; no match means safe. -/
def isCommandSafe (cmd : String) : SafeResult :=
  match dangerousCommands.find? (fun p => testJs p (trimStr cmd)) with
  | some _ => ⟨false, some "Blocked dangerous command pattern"⟩
  | none => ⟨true, none⟩

/-! ## Agent loop (src/agent.ts, `Agent.chat`)

    The transcript is a list of `Message`s.  The LLM endpoint is a
    parameter `llm` mapping the current transcript (the POSTed
    `messages` array) to an abstract response; tool execution is a
    parameter `exec`; `JSON.parse` on argument strings is a parameter
    `parse` returning `none` on a parse error.  The notification
    callback (`this.log` / `this.logTool`) is modelled as a list of
    structured log events, and `saveCurrentThread` as recording the
    persisted transcript (`messages.slice(1)`, the system prompt
    excluded) when the auto-save policy is on. -/

/-- A tool call as received from the endpoint
    (`{id, function: {name, arguments}}`). -/
structure ToolCall where
  id : String
  name : String
  arguments : String
deriving DecidableEq, Repr

/-- One transcript turn. -/
structure Message where
  role : String
  content : Option String
  tool_calls : List ToolCall
  tool_call_id : Option String
deriving DecidableEq, Repr

/-- Outcome of one `callLLM()` round. -/
inductive LLMResponse where
  /-- The fetch threw with `e.name === 'AbortError'`. -/
  | abortError
  /-- The fetch threw for any other reason (non-2xx, network, ...). -/
  | apiError (msg : String)
  /-- The response body carried an `error` field. -/
  | errorField (msg : String)
  /-- `res.choices?.[0]?.message` was absent. -/
  | noMessage
  /-- A normal assistant message: optional content, tool-call list
      (empty list models an absent `tool_calls`). -/
  | message (content : Option String) (tool_calls : List ToolCall)

/-- Structured rendering of the notification callback. -/
inductive LogEvent where
  | connecting
  | stopped
  | apiError (msg : String)
  | toolCall (name : String) (args : List (String × String))
  | toolResult (result : String)
  | content (text : String)
  | maxIterations
deriving DecidableEq, Repr

/-- The configuration flags the loop consults. -/
structure ChatConfig where
  autoSave : Bool
  showToolCalls : Bool

/-- The mutable agent state threaded through one `chat()` call. -/
structure ChatState where
  messages : List Message
  logs : List LogEvent
  savedTranscripts : List (List Message)
  llmCalls : Nat
  toolRounds : Nat

/-- Argument mapping passed to a tool (JSON object, values rendered as
    strings). -/
abbrev Args := List (String × String)

/-- `JSON.parse(tc.function.arguments || '{}')` under a `catch` that
    keeps the initial `{}`: an empty string parses the literal empty
    object; a parse failure falls back to the empty mapping. -/
def argsOf (parse : String → Option Args) (s : String) : Args :=
  if s = "" then [] else (parse s).getD []

def logEvent (e : LogEvent) (st : ChatState) : ChatState :=
  { st with logs := st.logs ++ [e] }

/-- `logTool`: forwarded to the log only when `showToolCalls` is on. -/
def logToolEvent (cfg : ChatConfig) (e : LogEvent) (st : ChatState) : ChatState :=
  if cfg.showToolCalls then logEvent e st else st

/-- `saveCurrentThread`: under the auto-save policy, persist the
    transcript without its leading system message. -/
def saveThread (cfg : ChatConfig) (st : ChatState) : ChatState :=
  if cfg.autoSave then
    { st with savedTranscripts := st.savedTranscripts ++ [st.messages.drop 1] }
  else st

/-- The tool-role message appended for one executed tool call. -/
def toolRespMsg (exec : String → Args → String) (parse : String → Option Args)
    (tc : ToolCall) : Message :=
  ⟨"tool", some (exec tc.name (argsOf parse tc.arguments)), [], some tc.id⟩

/-- The body of `for (const tc of msg.tool_calls)`: parse arguments,
    log, execute, log the result, and append the tool-role message. -/
def runOneTool (exec : String → Args → String) (parse : String → Option Args)
    (cfg : ChatConfig) (st : ChatState) (tc : ToolCall) : ChatState :=
  let args := argsOf parse tc.arguments
  let st1 := logToolEvent cfg (.toolCall tc.name args) st
  let result := exec tc.name args
  let st2 := logToolEvent cfg (.toolResult result) st1
  { st2 with messages := st2.messages ++ [toolRespMsg exec parse tc] }

/-- Execute one round's tool calls in the order received. -/
def runToolCalls (exec : String → Args → String) (parse : String → Option Args)
    (cfg : ChatConfig) (st : ChatState) (tcs : List ToolCall) : ChatState :=
  tcs.foldl (runOneTool exec parse cfg) st

/-- The `for (let i = 0; i < 15; i++)` body, with `fuel` counting
    remaining iterations; fuel exhaustion is the loop's fall-through
    to the max-iterations warning and save. -/
def chatLoop (llm : List Message → LLMResponse) (exec : String → Args → String)
    (parse : String → Option Args) (cfg : ChatConfig) :
    Nat → ChatState → ChatState
  | 0, st => saveThread cfg (logEvent .maxIterations st)
  | fuel + 1, st =>
    let st := logEvent .connecting st
    let st := { st with llmCalls := st.llmCalls + 1 }
    match llm st.messages with
    | .abortError => saveThread cfg (logEvent .stopped st)
    | .apiError m => logEvent (.apiError m) st
    | .errorField m => logEvent (.apiError m) st
    | .noMessage => chatLoop llm exec parse cfg fuel st
    | .message c tcs =>
      if tcs.isEmpty then
        match c with
        | some txt =>
          if txt = "" then chatLoop llm exec parse cfg fuel st
          else
            saveThread cfg (logEvent (.content txt)
              { st with messages := st.messages ++ [⟨"assistant", some txt, [], none⟩] })
        | none => chatLoop llm exec parse cfg fuel st
      else
        let st := { st with
          messages := st.messages ++ [⟨"assistant", c, tcs, none⟩],
          toolRounds := st.toolRounds + 1 }
        chatLoop llm exec parse cfg fuel (runToolCalls exec parse cfg st tcs)

/-- `Agent.chat(userMessage)`: push the user turn, then run up to 15
    rounds. -/
def chat (llm : List Message → LLMResponse) (exec : String → Args → String)
    (parse : String → Option Args) (cfg : ChatConfig)
    (msgs0 : List Message) (userMessage : String) : ChatState :=
  chatLoop llm exec parse cfg 15
    ⟨msgs0 ++ [⟨"user", some userMessage, [], none⟩], [], [], 0, 0⟩

/-! ## The tool-call/tool-result pairing invariant (spec §3, §8)

    `pairedAux ids l` scans `l` carrying the tool-call ids of the most
    recent assistant message: every tool-role message must name one of
    them; an assistant message replaces them; any other role clears
    them (a tool result may not skip over it). -/

def pairedAux : List String → List Message → Bool
  | _, [] => true
  | ids, m :: rest =>
    if m.role = "tool" then
      (match m.tool_call_id with
       | some i => decide (i ∈ ids)
       | none => false) && pairedAux ids rest
    else if m.role = "assistant" then
      pairedAux (m.tool_calls.map ToolCall.id) rest
    else pairedAux [] rest

/-- The id context after scanning a block. -/
def idsAfter : List String → List Message → List String
  | ids, [] => ids
  | ids, m :: rest =>
    if m.role = "tool" then idsAfter ids rest
    else if m.role = "assistant" then idsAfter (m.tool_calls.map ToolCall.id) rest
    else idsAfter [] rest

/-! ## Map helper lemmas -/

theorem find?_after_replace {α : Type} (k : String) (e : CacheEntry α) :
    ∀ tl : List (String × CacheEntry α),
      tl.any (fun p => p.1 = k) = true →
      List.find? (fun p => p.1 = k) (tl.map fun p => if p.1 = k then (k, e) else p)
        = some (k, e)
  | [], h => by simp at h
  | hd :: tl, h => by
    by_cases hk : hd.1 = k
    · simp only [List.map_cons, if_pos hk]
      exact List.find?_cons_of_pos _ (by simp)
    · have ha : tl.any (fun p => p.1 = k) = true := by
        simp only [List.any_cons] at h
        rcases Bool.or_eq_true_iff.mp h with h1 | h1
        · exact absurd (of_decide_eq_true h1) hk
        · exact h1
      simp only [List.map_cons, if_neg hk]
      rw [List.find?_cons_of_neg _ (by simpa using hk)]
      exact find?_after_replace k e tl ha

theorem find?_absent_append {α : Type} (k : String) (e : CacheEntry α) :
    ∀ tl : List (String × CacheEntry α),
      tl.any (fun p => p.1 = k) = false →
      List.find? (fun p => p.1 = k) (tl ++ [(k, e)]) = some (k, e)
  | [], _ => by
    simp only [List.nil_append]
    exact List.find?_cons_of_pos _ (by simp)
  | hd :: tl, h => by
    simp only [List.any_cons, Bool.or_eq_false_iff] at h
    simp only [List.cons_append]
    rw [List.find?_cons_of_neg _ (by simp [h.1])]
    exact find?_absent_append k e tl h.2

theorem mapGet_mapSet_self {α : Type} (m : CacheMap α) (k : String) (e : CacheEntry α) :
    mapGet (mapSet m k e) k = some e := by
  unfold mapGet mapSet
  by_cases ha : m.entries.any (fun p => p.1 = k)
  · rw [if_pos ha]
    rw [find?_after_replace k e m.entries ha]
    rfl
  · rw [if_neg ha]
    rw [find?_absent_append k e m.entries (eq_false_of_ne_true ha)]
    rfl

theorem mapGet_mapDelete_self {α : Type} (m : CacheMap α) (k : String) :
    mapGet (mapDelete m k) k = none := by
  unfold mapGet mapDelete
  induction m.entries with
  | nil => simp [List.find?]
  | cons hd tl ih =>
    by_cases hk : hd.1 = k
    · simp only [List.filter_cons]
      rw [if_neg (by simp [hk])]
      exact ih
    · simp only [List.filter_cons]
      rw [if_pos (by simp [hk])]
      rw [List.find?_cons_of_neg _ (by simpa using hk)]
      exact ih

/-! ## Claim theorems: cache (C6, C7) -/

/-- **C6** — Cache TTL: an entry stored by `set(key, value, t)` at time
    `t0` is returned by `get(key)` at every read time strictly less than
    `t` milliseconds later; at every read strictly after `t`
    milliseconds the entry is absent and lazily evicted at read time;
    `set` without an explicit TTL uses the 60-second default. -/
theorem cache_ttl_bound {α : Type} (m : CacheMap α) (key : String) (v : α)
    (t t0 t1 : Nat) (h01 : t0 ≤ t1) :
    (t1 < t0 + t → (Cache.get t1 (Cache.set t0 m key v t) key).1 = some v) ∧
    (t0 + t < t1 → (Cache.get t1 (Cache.set t0 m key v t) key).1 = none ∧
       mapGet (Cache.get t1 (Cache.set t0 m key v t) key).2 key = none) ∧
    Cache.setDefault t0 m key v = Cache.set t0 m key v 60000 := by
  refine ⟨fun h => ?_, fun h => ?_, rfl⟩
  · unfold Cache.get Cache.set
    simp only [mapGet_mapSet_self]
    rw [if_neg (by omega)]
  · unfold Cache.get Cache.set
    simp only [mapGet_mapSet_self]
    rw [if_pos (by omega)]
    exact ⟨rfl, mapGet_mapDelete_self _ _⟩

/-- Witness for C6 at a concrete instance (TTL 100ms, set at 0, reads
    at 50 and 101). -/
theorem cache_ttl_bound_witness :
    (Cache.get 50 (Cache.set 0 (⟨[]⟩ : CacheMap Nat) "k" 7 100) "k").1 = some 7 ∧
    (Cache.get 101 (Cache.set 0 (⟨[]⟩ : CacheMap Nat) "k" 7 100) "k").1 = none :=
  ⟨(cache_ttl_bound ⟨[]⟩ "k" 7 100 0 50 (by decide)).1 (by decide),
   ((cache_ttl_bound ⟨[]⟩ "k" 7 100 0 101 (by decide)).2.1 (by decide)).1⟩

/-- **C7** — File-cache round-trip with modification-time gating:
    within the 5-minute TTL, `setFile` followed by `getFile` on a file
    whose observed mtime equals the recorded one returns the cached
    content (the model's `getFile` has no disk-content input, so the
    content cannot have been re-read from disk), leaving the cache
    unchanged; if the observed mtime differs, `getFile` returns no hit
    while the cache state is returned unchanged (bypassed, not
    removed). -/
theorem file_cache_mtime_gate (m : CacheMap Cache.FileEntry)
    (cwd root fp content : String) (mt0 mt1 t0 t1 : Nat)
    (h01 : t0 ≤ t1) (httl : t1 ≤ t0 + 300000) :
    (mt1 = mt0 →
      Cache.getFile t1 (Cache.setFile t0 m cwd root fp content (some mt0))
          cwd root fp (some mt1)
        = (some content, Cache.setFile t0 m cwd root fp content (some mt0))) ∧
    (mt1 ≠ mt0 →
      Cache.getFile t1 (Cache.setFile t0 m cwd root fp content (some mt0))
          cwd root fp (some mt1)
        = (none, Cache.setFile t0 m cwd root fp content (some mt0))) := by
  unfold Cache.getFile Cache.setFile Cache.get Cache.set
  simp only [mapGet_mapSet_self]
  rw [if_neg (by omega)]
  constructor
  · intro h; simp [h]
  · intro h; simp [h]

/-- Witness for C7 at a concrete instance. -/
theorem file_cache_mtime_gate_witness :
    Cache.getFile 10 (Cache.setFile 0 (⟨[]⟩ : CacheMap Cache.FileEntry)
        "/cwd" "/ws" "/ws/a.ts" "text" (some 42)) "/cwd" "/ws" "/ws/a.ts" (some 42)
      = (some "text",
         Cache.setFile 0 ⟨[]⟩ "/cwd" "/ws" "/ws/a.ts" "text" (some 42)) ∧
    Cache.getFile 10 (Cache.setFile 0 (⟨[]⟩ : CacheMap Cache.FileEntry)
        "/cwd" "/ws" "/ws/a.ts" "text" (some 42)) "/cwd" "/ws" "/ws/a.ts" (some 43)
      = (none, Cache.setFile 0 ⟨[]⟩ "/cwd" "/ws" "/ws/a.ts" "text" (some 42)) :=
  ⟨(file_cache_mtime_gate ⟨[]⟩ "/cwd" "/ws" "/ws/a.ts" "text" 42 42 0 10
      (by decide) (by decide)).1 rfl,
   (file_cache_mtime_gate ⟨[]⟩ "/cwd" "/ws" "/ws/a.ts" "text" 42 43 0 10
      (by decide) (by decide)).2 (by decide)⟩

/-! ## Claim theorems: the `forget` tool (C10) -/

theorem removeMemory_zero (a : String) (l : List String) :
    removeMemory (a :: l) 0 = (true, l) := by
  unfold removeMemory
  rw [if_pos]
  · simp
  · refine ⟨le_refl 0, ?_⟩
    simp only [List.length_cons]
    omega

/-- **C10** — `forget` with `index` absent or `0` removes the first
    remembered fact (the JS-falsy default maps both to raw index 1,
    hence 0-based position 0), succeeding whenever at least one fact
    exists; an out-of-range index leaves the store unchanged and
    returns an error text. -/
theorem forget_tool_default_and_range :
    (∀ facts : List String, facts ≠ [] →
      forgetTool facts none = ("✓ Forgot item undefined", facts.tail) ∧
      forgetTool facts (some 0) = ("✓ Forgot item 0", facts.tail)) ∧
    (∀ (facts : List String) (n : Int),
      n ≠ 0 → ¬((0:Int) ≤ n - 1 ∧ n - 1 < (facts.length : Int)) →
      forgetTool facts (some n) = ("Error: Invalid index " ++ toString n, facts)) := by
  constructor
  · intro facts h
    obtain ⟨a, l, rfl⟩ : ∃ a l, facts = a :: l := by
      cases facts with
      | nil => exact absurd rfl h
      | cons a l => exact ⟨a, l, rfl⟩
    have h1 : forgetFallback none - 1 = 0 := by simp [forgetFallback]
    have h2 : forgetFallback (some 0) - 1 = 0 := by simp [forgetFallback]
    constructor
    · unfold forgetTool
      rw [h1]
      dsimp only
      rw [removeMemory_zero]
      rfl
    · unfold forgetTool
      rw [h2]
      dsimp only
      rw [removeMemory_zero]
      rfl
  · intro facts n hn hrange
    have h1 : forgetFallback (some n) = n := by
      unfold forgetFallback
      dsimp only
      rw [if_neg hn]
    unfold forgetTool removeMemory
    rw [h1]
    dsimp only
    rw [if_neg hrange]
    rfl

/-- Witness for C10 at concrete instances. -/
theorem forget_tool_default_and_range_witness :
    forgetTool ["a", "b"] none = ("✓ Forgot item undefined", ["b"]) ∧
    forgetTool ["a", "b"] (some 0) = ("✓ Forgot item 0", ["b"]) ∧
    forgetTool ["a", "b"] (some 5) = ("Error: Invalid index 5", ["a", "b"]) :=
  ⟨(forget_tool_default_and_range.1 ["a", "b"] (by decide)).1,
   (forget_tool_default_and_range.1 ["a", "b"] (by decide)).2,
   forget_tool_default_and_range.2 ["a", "b"] 5 (by decide) (by decide)⟩

/-! ## Claim theorems: write_file / undo round-trip (C4) -/

theorem recordChange_getLast (st : SafetyState) (p : String) (old : Option String)
    (new : String) (ts : Nat) :
    (recordChange st p old new ts).history.getLast? = some ⟨p, old, new, ts⟩ := by
  unfold recordChange
  dsimp only
  by_cases h : maxHistorySize < (st.history ++ [(⟨p, old, new, ts⟩ : FileChange)]).length
  · rw [if_pos h]
    cases hh : st.history with
    | nil => simp [maxHistorySize, hh] at h
    | cons x t =>
      rw [List.cons_append, List.drop_one, List.tail_cons]
      exact List.getLast?_concat _
  · rw [if_neg h]
    exact List.getLast?_concat _

theorem recordChange_dropLast_keeps (st : SafetyState) (p : String)
    (old : Option String) (new : String) (ts : Nat) :
    ((recordChange st p old new ts).history.getLast?).isSome = true := by
  rw [recordChange_getLast]
  rfl

/-- **C4** — Undo round-trip: a successful `write_file` over an
    existing file records the prior content, and `undoLastChange`
    rewrites that prior content verbatim; a successful `write_file`
    that created a brand-new file records `null`, and
    `undoLastChange` deletes the file; in both cases undo pops exactly
    the most recent `FileChange` (the history becomes the post-write
    history minus its last element), making undo strictly
    single-step. -/
theorem write_file_undo_round_trip (cwd root pathArg content : String)
    (cfg : WriteConfig) (userConfirm : Bool) (st : SafetyState) (fs : FS) (ts : Nat)
    (hsafe : (isPathSafe cwd root (resolvePathAgent root pathArg)).safe = true)
    (hconfirm : (cfg.confirmBeforeWrite && !userConfirm) = false) :
    (∀ oldC, fs (resolvePathAgent root pathArg) = some oldC →
      (writeFileTool cwd root cfg userConfirm st fs pathArg content ts).fs
          (resolvePathAgent root pathArg) = some content ∧
      (undoLastChange
          (writeFileTool cwd root cfg userConfirm st fs pathArg content ts).state
          (writeFileTool cwd root cfg userConfirm st fs pathArg content ts).fs).success
        = true ∧
      (undoLastChange
          (writeFileTool cwd root cfg userConfirm st fs pathArg content ts).state
          (writeFileTool cwd root cfg userConfirm st fs pathArg content ts).fs).fs
          (resolvePathAgent root pathArg) = some oldC ∧
      (undoLastChange
          (writeFileTool cwd root cfg userConfirm st fs pathArg content ts).state
          (writeFileTool cwd root cfg userConfirm st fs pathArg content ts).fs).state.history
        = (writeFileTool cwd root cfg userConfirm st fs pathArg content ts).state.history.dropLast) ∧
    (fs (resolvePathAgent root pathArg) = none →
      (writeFileTool cwd root cfg userConfirm st fs pathArg content ts).fs
          (resolvePathAgent root pathArg) = some content ∧
      (undoLastChange
          (writeFileTool cwd root cfg userConfirm st fs pathArg content ts).state
          (writeFileTool cwd root cfg userConfirm st fs pathArg content ts).fs).success
        = true ∧
      (undoLastChange
          (writeFileTool cwd root cfg userConfirm st fs pathArg content ts).state
          (writeFileTool cwd root cfg userConfirm st fs pathArg content ts).fs).fs
          (resolvePathAgent root pathArg) = none ∧
      (undoLastChange
          (writeFileTool cwd root cfg userConfirm st fs pathArg content ts).state
          (writeFileTool cwd root cfg userConfirm st fs pathArg content ts).fs).state.history
        = (writeFileTool cwd root cfg userConfirm st fs pathArg content ts).state.history.dropLast) := by
  have hw : writeFileTool cwd root cfg userConfirm st fs pathArg content ts =
      ⟨"✓ Written: " ++ pathArg,
       recordChange
         (if (fs (resolvePathAgent root pathArg)).isSome && cfg.backupBeforeWrite
          then backupFile st fs cwd root (resolvePathAgent root pathArg) ts else st)
         (resolvePathAgent root pathArg) (fs (resolvePathAgent root pathArg)) content ts,
       fun q => if q = resolvePathAgent root pathArg then some content else fs q⟩ := by
    unfold writeFileTool
    rw [if_neg (by simp [hsafe]), if_neg (by simp [hconfirm])]
  constructor
  · intro oldC hEx
    rw [hw]
    dsimp only
    rw [hEx]
    unfold undoLastChange
    rw [recordChange_getLast]
    dsimp only
    simp
  · intro hNew
    rw [hw]
    dsimp only
    rw [hNew]
    unfold undoLastChange
    rw [recordChange_getLast]
    dsimp only
    simp

/-- Witness for C4 at a concrete instance: overwrite `/ws/a.txt`
    containing `"old"`, then undo; and create `/ws/new.txt`, then
    undo. -/
theorem write_file_undo_round_trip_witness :
    ((undoLastChange
        (writeFileTool "/ws" "/ws" ⟨false, true⟩ false ⟨[], []⟩
          (fun q => if q = "/ws/a.txt" then some "old" else none) "a.txt" "new" 5).state
        (writeFileTool "/ws" "/ws" ⟨false, true⟩ false ⟨[], []⟩
          (fun q => if q = "/ws/a.txt" then some "old" else none) "a.txt" "new" 5).fs).fs
      (resolvePathAgent "/ws" "a.txt") = some "old") ∧
    ((undoLastChange
        (writeFileTool "/ws" "/ws" ⟨false, true⟩ false ⟨[], []⟩
          (fun _ => none) "new.txt" "fresh" 5).state
        (writeFileTool "/ws" "/ws" ⟨false, true⟩ false ⟨[], []⟩
          (fun _ => none) "new.txt" "fresh" 5).fs).fs
      (resolvePathAgent "/ws" "new.txt") = none) :=
  ⟨((write_file_undo_round_trip "/ws" "/ws" "a.txt" "new" ⟨false, true⟩ false ⟨[], []⟩
      (fun q => if q = "/ws/a.txt" then some "old" else none) 5
      (by decide) (by decide)).1 "old" (by decide)).2.2.1,
   ((write_file_undo_round_trip "/ws" "/ws" "new.txt" "fresh" ⟨false, true⟩ false ⟨[], []⟩
      (fun _ => none) 5 (by decide) (by decide)).2 rfl).2.2.1⟩

/-! ## Claim theorems: path safety (C3, C9) -/

theorem data_shape_of_startsWith {s p : String} (h : strStartsWith s p = true) :
    ∃ t, s.data = p.data ++ t := by
  unfold strStartsWith at h
  obtain ⟨t, ht⟩ := List.isPrefixOf_iff_prefix.mp h
  exact ⟨t, ht.symm⟩

theorem startsWith_of_prefix {s p q : String} (hpq : p.data <+: q.data)
    (h : strStartsWith s q = true) : strStartsWith s p = true := by
  unfold strStartsWith at h ⊢
  exact List.isPrefixOf_iff_prefix.mpr (hpq.trans (List.isPrefixOf_iff_prefix.mp h))

theorem startsWith_self (s : String) : strStartsWith s s = true := by
  unfold strStartsWith
  exact List.isPrefixOf_iff_prefix.mpr (List.prefix_refl _)

/-- A string whose first two characters are not both `.` does not start
    with `..`. -/
theorem startsWith_dd_false {s : String} {c1 c2 : Char} {t : List Char}
    (hd : s.data = c1 :: c2 :: t) (hne : ¬(c1 = '.' ∧ c2 = '.')) :
    strStartsWith s ".." = false := by
  by_contra hc
  have htrue : strStartsWith s ".." = true := by
    cases hcase : strStartsWith s ".." with
    | true => rfl
    | false => exact absurd hcase hc
  obtain ⟨t2, ht2⟩ := data_shape_of_startsWith htrue
  have hdd : (".." : String).data = ['.', '.'] := rfl
  rw [hd, hdd] at ht2
  simp only [List.cons_append, List.nil_append, List.cons.injEq] at ht2
  exact hne ⟨ht2.1, ht2.2.1⟩

theorem isAbs_false_of_head {s : String} {c1 : Char} {t : List Char}
    (hd : s.data = c1 :: t) (h : ¬c1 = '/') : isAbsStr s = false := by
  unfold isAbsStr
  rw [hd]
  simp [h]

theorem dangerousCheck_cons (pat : String) (ps : List String) (rel : String) :
    dangerousCheck (pat :: ps) rel =
      if dangerousHit rel pat then
        if pat = ".git" then some ⟨false, some "Cannot modify .git directory"⟩
        else dangerousCheck ps rel
      else dangerousCheck ps rel := rfl

theorem dangerousCheck_cons_nongit (pat : String) (ps : List String) (rel : String)
    (h : ¬pat = ".git") :
    dangerousCheck (pat :: ps) rel = dangerousCheck ps rel := by
  rw [dangerousCheck_cons]
  by_cases hhit : dangerousHit rel pat
  · rw [if_pos hhit, if_neg h]
  · rw [if_neg hhit]

theorem dangerousCheck_tail_none (rel : String) :
    dangerousCheck ["node_modules/.bin", ".env", ".env.local", ".env.production"] rel
      = none := by
  rw [dangerousCheck_cons_nongit _ _ _ (by decide),
      dangerousCheck_cons_nongit _ _ _ (by decide),
      dangerousCheck_cons_nongit _ _ _ (by decide),
      dangerousCheck_cons_nongit _ _ _ (by decide)]
  rfl

/-- The whole `dangerous` loop reduces to the `.git` test. -/
theorem dangerousCheck_git (rel : String) :
    dangerousCheck dangerousPaths rel =
      if dangerousHit rel ".git" then some ⟨false, some "Cannot modify .git directory"⟩
      else none := by
  show dangerousCheck (".git" :: _) rel = _
  rw [dangerousCheck_cons]
  by_cases hhit : dangerousHit rel ".git"
  · rw [if_pos hhit, if_pos rfl, if_pos hhit]
  · rw [if_neg hhit, if_neg hhit]
    exact dangerousCheck_tail_none rel

/-- **C3** — `isPathSafe` rejects, with a human-readable reason, every
    path whose workspace-relative resolved form escapes the root
    (starts with `..` or is still absolute) or falls under the `.git`
    metadata directory. -/
theorem path_safety_blocks (cwd root p : String)
    (H : strStartsWith (pathRelative cwd root (pathResolve cwd p)) ".." = true ∨
         isAbsStr (pathRelative cwd root (pathResolve cwd p)) = true ∨
         pathRelative cwd root (pathResolve cwd p) = ".git" ∨
         strStartsWith (pathRelative cwd root (pathResolve cwd p)) ".git/" = true) :
    (isPathSafe cwd root p).safe = false ∧
    (isPathSafe cwd root p).reason.isSome = true := by
  unfold isPathSafe
  dsimp only
  set r := pathRelative cwd root (pathResolve cwd p) with hr
  rcases H with h | h | h | h
  · have hcond : (strStartsWith r ".." || isAbsStr r) = true := by
      rw [h]; exact Bool.true_or _
    rw [if_pos hcond]
    exact ⟨rfl, rfl⟩
  · have hcond : (strStartsWith r ".." || isAbsStr r) = true := by
      rw [h]; exact Bool.or_true _
    rw [if_pos hcond]
    exact ⟨rfl, rfl⟩
  · rw [h]
    exact ⟨by decide, by decide⟩
  · obtain ⟨t2, ht2⟩ := data_shape_of_startsWith h
    have hgitdata : (".git/" : String).data = ['.', 'g', 'i', 't', '/'] := rfl
    rw [hgitdata] at ht2
    have h1 : strStartsWith r ".." = false := startsWith_dd_false ht2 (by decide)
    have h2 : isAbsStr r = false := isAbs_false_of_head ht2 (by decide)
    have hgit : dangerousHit r ".git" = true := by
      unfold dangerousHit
      have hsw : strStartsWith r ".git" = true :=
        startsWith_of_prefix ⟨("/" : String).data, (String.data_append ".git" "/").symm⟩ h
      rw [hsw]
      rfl
    rw [if_neg (by rw [h1, h2]; decide)]
    rw [dangerousCheck_git r, if_pos hgit]
    exact ⟨rfl, rfl⟩

/-- Witness for C3: a `..`-escape and a `.git` path. -/
theorem path_safety_blocks_witness :
    ((isPathSafe "/cwd" "/ws" "/ws/../etc/passwd").safe = false ∧
     (isPathSafe "/cwd" "/ws" "/ws/../etc/passwd").reason.isSome = true) ∧
    ((isPathSafe "/cwd" "/ws" "/ws/.git/config").safe = false ∧
     (isPathSafe "/cwd" "/ws" "/ws/.git/config").reason.isSome = true) :=
  ⟨path_safety_blocks "/cwd" "/ws" "/ws/../etc/passwd" (Or.inl (by decide)),
   path_safety_blocks "/cwd" "/ws" "/ws/.git/config"
     (Or.inr (Or.inr (Or.inr (by decide))))⟩

/-- **C9** — Paths whose workspace-relative form is, or lies under,
    `.env`, `.env.local`, `.env.production` or `node_modules/.bin`
    come back safe: these names appear in the internal dangerous list,
    but only a `.git` match (which the claim's rider excludes, here
    `dangerousHit rel ".git" = false`) produces an unsafe result. -/
theorem env_paths_pass (cwd root p pre : String)
    (hpre : pre = ".env" ∨ pre = ".env.local" ∨ pre = ".env.production" ∨
            pre = "node_modules/.bin")
    (hrel : pathRelative cwd root (pathResolve cwd p) = pre ∨
            strStartsWith (pathRelative cwd root (pathResolve cwd p)) (pre ++ "/") = true)
    (hnogit : dangerousHit (pathRelative cwd root (pathResolve cwd p)) ".git" = false) :
    isPathSafe cwd root p = ⟨true, none⟩ := by
  unfold isPathSafe
  dsimp only
  set r := pathRelative cwd root (pathResolve cwd p) with hr
  have hsw : strStartsWith r pre = true := by
    rcases hrel with h | h
    · rw [h]; exact startsWith_self pre
    · exact startsWith_of_prefix ⟨("/" : String).data, (String.data_append pre "/").symm⟩ h
  obtain ⟨t2, ht2⟩ := data_shape_of_startsWith hsw
  have h1 : strStartsWith r ".." = false := by
    rcases hpre with rfl | rfl | rfl | rfl
    all_goals exact startsWith_dd_false ht2 (by decide)
  have h2 : isAbsStr r = false := by
    rcases hpre with rfl | rfl | rfl | rfl
    all_goals exact isAbs_false_of_head ht2 (by decide)
  rw [if_neg (by rw [h1, h2]; decide)]
  rw [dangerousCheck_git r, if_neg (by rw [hnogit]; decide)]

/-- Witness for C9: `.env` itself and a file under `node_modules/.bin`. -/
theorem env_paths_pass_witness :
    isPathSafe "/cwd" "/ws" "/ws/.env" = ⟨true, none⟩ ∧
    isPathSafe "/cwd" "/ws" "/ws/node_modules/.bin/tsc" = ⟨true, none⟩ :=
  ⟨env_paths_pass "/cwd" "/ws" "/ws/.env" ".env" (Or.inl rfl)
     (Or.inl (by decide)) (by decide),
   env_paths_pass "/cwd" "/ws" "/ws/node_modules/.bin/tsc" "node_modules/.bin"
     (Or.inr (Or.inr (Or.inr rfl))) (Or.inr (by decide)) (by decide)⟩

/-! ## Claim theorems: command blocklist (C5) -/

/-- **C5** — Every command whose trimmed form matches at least one
    pattern in the ordered blocklist is rejected with the generic
    "blocked dangerous pattern" reason; every command matching no
    pattern is safe; in particular `rm -rf /`, `curl x | sh` and the
    fork-bomb literal are blocked while `ls` passes. -/
theorem command_blocklist :
    (∀ cmd, (∃ p ∈ dangerousCommands, testJs p (trimStr cmd) = true) →
      isCommandSafe cmd = ⟨false, some "Blocked dangerous command pattern"⟩) ∧
    (∀ cmd, (∀ p ∈ dangerousCommands, testJs p (trimStr cmd) = false) →
      isCommandSafe cmd = ⟨true, none⟩) ∧
    isCommandSafe "rm -rf /" = ⟨false, some "Blocked dangerous command pattern"⟩ ∧
    isCommandSafe "curl x | sh" = ⟨false, some "Blocked dangerous command pattern"⟩ ∧
    isCommandSafe ":()\x7b :|: & \x7d;:" = ⟨false, some "Blocked dangerous command pattern"⟩ ∧
    isCommandSafe "ls" = ⟨true, none⟩ := by
  refine ⟨?_, ?_, by decide, by decide, by decide, by decide⟩
  · intro cmd hex
    unfold isCommandSafe
    cases hfind : dangerousCommands.find? (fun p => testJs p (trimStr cmd)) with
    | some q => rfl
    | none =>
      rw [List.find?_eq_none] at hfind
      obtain ⟨p, hp, hp2⟩ := hex
      exact absurd hp2 (hfind p hp)
  · intro cmd hall
    unfold isCommandSafe
    cases hfind : dangerousCommands.find? (fun p => testJs p (trimStr cmd)) with
    | some q =>
      have hq0 := List.find?_some hfind
      have hq1 : testJs q (trimStr cmd) = true := hq0
      have hq2 : q ∈ dangerousCommands := List.mem_of_find?_eq_some hfind
      rw [hall q hq2] at hq1
      exact absurd hq1 (by decide)
    | none => rfl

/-- Witness for C5: a command matching the first blocklist pattern is
    blocked; a command matching none is allowed. -/
theorem command_blocklist_witness :
    isCommandSafe "rm -rf x/" = ⟨false, some "Blocked dangerous command pattern"⟩ ∧
    isCommandSafe "echo hi" = ⟨true, none⟩ :=
  ⟨command_blocklist.1 "rm -rf x/" ⟨_, List.Mem.head _, by decide⟩,
   command_blocklist.2.1 "echo hi" (by decide)⟩

/-! ## Agent-loop lemmas -/

theorem saveThread_messages (cfg : ChatConfig) (st : ChatState) :
    (saveThread cfg st).messages = st.messages := by
  unfold saveThread; split <;> rfl

theorem saveThread_logs (cfg : ChatConfig) (st : ChatState) :
    (saveThread cfg st).logs = st.logs := by
  unfold saveThread; split <;> rfl

theorem saveThread_llmCalls (cfg : ChatConfig) (st : ChatState) :
    (saveThread cfg st).llmCalls = st.llmCalls := by
  unfold saveThread; split <;> rfl

theorem saveThread_toolRounds (cfg : ChatConfig) (st : ChatState) :
    (saveThread cfg st).toolRounds = st.toolRounds := by
  unfold saveThread; split <;> rfl

theorem runOneTool_spec (exec : String → Args → String) (parse : String → Option Args)
    (cfg : ChatConfig) (st : ChatState) (tc : ToolCall) :
    (runOneTool exec parse cfg st tc).messages
        = st.messages ++ [toolRespMsg exec parse tc] ∧
    (runOneTool exec parse cfg st tc).llmCalls = st.llmCalls ∧
    (runOneTool exec parse cfg st tc).toolRounds = st.toolRounds ∧
    (runOneTool exec parse cfg st tc).savedTranscripts = st.savedTranscripts := by
  by_cases h : cfg.showToolCalls <;>
    simp [runOneTool, logToolEvent, logEvent, h]

theorem runToolCalls_spec (exec : String → Args → String) (parse : String → Option Args)
    (cfg : ChatConfig) :
    ∀ (tcs : List ToolCall) (st : ChatState),
      (runToolCalls exec parse cfg st tcs).messages
          = st.messages ++ tcs.map (toolRespMsg exec parse) ∧
      (runToolCalls exec parse cfg st tcs).llmCalls = st.llmCalls ∧
      (runToolCalls exec parse cfg st tcs).toolRounds = st.toolRounds ∧
      (runToolCalls exec parse cfg st tcs).savedTranscripts = st.savedTranscripts
  | [], st => by simp [runToolCalls]
  | tc :: tcs, st => by
    have h1 := runOneTool_spec exec parse cfg st tc
    have ih := runToolCalls_spec exec parse cfg tcs (runOneTool exec parse cfg st tc)
    unfold runToolCalls at ih ⊢
    simp only [List.foldl_cons, List.map_cons]
    rw [ih.1, h1.1, ih.2.1, h1.2.1, ih.2.2.1, h1.2.2.1, ih.2.2.2, h1.2.2.2]
    refine ⟨?_, rfl, rfl, rfl⟩
    rw [List.append_assoc]
    rfl

theorem pairedAux_append (l1 : List Message) :
    ∀ (ids : List String) (l2 : List Message),
      pairedAux ids (l1 ++ l2)
        = (pairedAux ids l1 && pairedAux (idsAfter ids l1) l2) := by
  induction l1 with
  | nil => intro ids l2; simp [pairedAux, idsAfter]
  | cons m t ih =>
    intro ids l2
    by_cases h1 : m.role = "tool"
    · simp [List.cons_append, pairedAux, idsAfter, h1, ih, Bool.and_assoc]
    · by_cases h2 : m.role = "assistant"
      · simp [List.cons_append, pairedAux, idsAfter, h1, h2, ih]
      · simp [List.cons_append, pairedAux, idsAfter, h1, h2, ih]

theorem pairedAux_toolMsgs (exec : String → Args → String)
    (parse : String → Option Args) :
    ∀ (tcs : List ToolCall) (ids : List String),
      (∀ tc ∈ tcs, tc.id ∈ ids) →
      pairedAux ids (tcs.map (toolRespMsg exec parse)) = true
  | [], _, _ => rfl
  | tc :: tcs, ids, h => by
    simp only [List.map_cons, toolRespMsg, pairedAux, if_true]
    rw [decide_eq_true (h tc (List.mem_cons_self _ _)), Bool.true_and]
    exact pairedAux_toolMsgs exec parse tcs ids fun x hx => h x (List.mem_cons_of_mem _ hx)

/-- One tool-call round appended by the loop always satisfies the
    pairing checker, whatever id context it is scanned under. -/
theorem pairedAux_assistant_block (exec : String → Args → String)
    (parse : String → Option Args) (ids : List String) (c : Option String)
    (tcs : List ToolCall) :
    pairedAux ids
      ((⟨"assistant", c, tcs, none⟩ : Message) :: tcs.map (toolRespMsg exec parse))
      = true := by
  simp only [pairedAux, if_true]
  exact pairedAux_toolMsgs exec parse tcs _ fun tc h => List.mem_map_of_mem ToolCall.id h

theorem pairedAux_assistant_single (ids : List String) (txt : String) :
    pairedAux ids [(⟨"assistant", some txt, [], none⟩ : Message)] = true := by
  simp [pairedAux]

theorem chatLoop_paired (llm : List Message → LLMResponse)
    (exec : String → Args → String) (parse : String → Option Args)
    (cfg : ChatConfig) (k : Nat) :
    ∀ (fuel : Nat) (st : ChatState), k ≤ st.messages.length →
      pairedAux [] (st.messages.drop k) = true →
      pairedAux [] ((chatLoop llm exec parse cfg fuel st).messages.drop k) = true := by
  intro fuel
  induction fuel with
  | zero =>
    intro st hk hp
    simp only [chatLoop]
    rw [saveThread_messages]
    exact hp
  | succ n ih =>
    intro st hk hp
    simp only [chatLoop, logEvent]
    cases hllm : llm st.messages with
    | abortError =>
      rw [saveThread_messages]
      exact hp
    | apiError m => exact hp
    | errorField m => exact hp
    | noMessage => exact ih _ hk hp
    | message c tcs =>
      dsimp only
      by_cases htcs : tcs.isEmpty
      · rw [if_pos htcs]
        cases c with
        | none => exact ih _ hk hp
        | some txt =>
          dsimp only
          by_cases htxt : txt = ""
          · rw [if_pos htxt]
            exact ih _ hk hp
          · rw [if_neg htxt]
            rw [saveThread_messages]
            show pairedAux []
              ((st.messages ++ [(⟨"assistant", some txt, [], none⟩ : Message)]).drop k) = true
            rw [List.drop_append_of_le_length hk, pairedAux_append, hp, Bool.true_and]
            exact pairedAux_assistant_single _ txt
      · rw [if_neg htcs]
        apply ih
        · rw [(runToolCalls_spec exec parse cfg tcs _).1]
          show k ≤ ((st.messages ++ [(⟨"assistant", c, tcs, none⟩ : Message)])
            ++ tcs.map (toolRespMsg exec parse)).length
          simp only [List.length_append]
          omega
        · rw [(runToolCalls_spec exec parse cfg tcs _).1]
          show pairedAux []
            (((st.messages ++ [(⟨"assistant", c, tcs, none⟩ : Message)])
              ++ tcs.map (toolRespMsg exec parse)).drop k) = true
          rw [List.append_assoc, List.drop_append_of_le_length hk, pairedAux_append,
            hp, Bool.true_and]
          exact pairedAux_assistant_block exec parse _ c tcs

/-- **C2** — Transcript invariant for arbitrary mixed rounds: every
    tool-role message appended by `chat` names a tool-call id of the
    immediately preceding assistant message (the `pairedAux` checker
    accepts the appended suffix), and one round's tool calls are
    executed in the order received, each result being appended
    immediately after its execution (`runToolCalls` appends exactly
    the in-order list of per-call tool messages after the verbatim
    assistant message). -/
theorem transcript_tool_pairing :
    (∀ (llm : List Message → LLMResponse) (exec : String → Args → String)
       (parse : String → Option Args) (cfg : ChatConfig)
       (msgs0 : List Message) (userMessage : String),
      pairedAux []
        ((chat llm exec parse cfg msgs0 userMessage).messages.drop msgs0.length)
        = true) ∧
    (∀ (exec : String → Args → String) (parse : String → Option Args)
       (cfg : ChatConfig) (st : ChatState) (tcs : List ToolCall),
      (runToolCalls exec parse cfg st tcs).messages
        = st.messages ++ tcs.map (toolRespMsg exec parse)) := by
  constructor
  · intro llm exec parse cfg msgs0 u
    unfold chat
    apply chatLoop_paired
    · simp
    · rw [List.drop_left]
      simp [pairedAux]
  · intro exec parse cfg st tcs
    exact (runToolCalls_spec exec parse cfg tcs st).1

theorem chatLoop_allToolCalls (llm : List Message → LLMResponse)
    (exec : String → Args → String) (parse : String → Option Args) (cfg : ChatConfig)
    (hllm : ∀ ms, ∃ tcs, llm ms = LLMResponse.message none tcs ∧ tcs ≠ []) :
    ∀ (fuel : Nat) (st : ChatState),
      (chatLoop llm exec parse cfg fuel st).llmCalls = st.llmCalls + fuel ∧
      (chatLoop llm exec parse cfg fuel st).toolRounds = st.toolRounds + fuel ∧
      LogEvent.maxIterations ∈ (chatLoop llm exec parse cfg fuel st).logs ∧
      (cfg.autoSave = true →
        (chatLoop llm exec parse cfg fuel st).savedTranscripts
          = st.savedTranscripts
              ++ [(chatLoop llm exec parse cfg fuel st).messages.drop 1]) := by
  intro fuel
  induction fuel with
  | zero =>
    intro st
    simp only [chatLoop]
    refine ⟨by rw [saveThread_llmCalls]; rfl, by rw [saveThread_toolRounds]; rfl, ?_, ?_⟩
    · rw [saveThread_logs]
      exact List.mem_append_right _ (List.mem_singleton.mpr rfl)
    · intro hs
      simp [saveThread, logEvent, hs]
  | succ n ih =>
    intro st
    simp only [chatLoop, logEvent]
    obtain ⟨tcs, heq, hne⟩ := hllm st.messages
    rw [heq]
    dsimp only
    have hie : tcs.isEmpty = false := by
      cases tcs with
      | nil => exact absurd rfl hne
      | cons a l => rfl
    rw [if_neg (by rw [hie]; exact Bool.false_ne_true)]
    refine ⟨?_, ?_, (ih _).2.2.1, ?_⟩
    · rw [(ih _).1, (runToolCalls_spec exec parse cfg tcs _).2.1]
      show st.llmCalls + 1 + n = st.llmCalls + (n + 1)
      omega
    · rw [(ih _).2.1, (runToolCalls_spec exec parse cfg tcs _).2.2.1]
      show st.toolRounds + 1 + n = st.toolRounds + (n + 1)
      omega
    · intro hs
      rw [(ih _).2.2.2 hs, (runToolCalls_spec exec parse cfg tcs _).2.2.2]

/-- **C1** — Agent loop bound: against a simulated endpoint that on
    every call answers with at least one tool call and no final
    content, `chat` performs exactly 15 LLM-call-plus-tool-execution
    rounds (it terminates, being a total function), emits the
    max-iterations warning, and persists exactly the transcript
    accumulated so far (one saved copy of the final message list, less
    the system turn). -/
theorem agent_loop_bound (llm : List Message → LLMResponse)
    (exec : String → Args → String) (parse : String → Option Args)
    (cfg : ChatConfig) (msgs0 : List Message) (userMessage : String)
    (hllm : ∀ ms, ∃ tcs, llm ms = LLMResponse.message none tcs ∧ tcs ≠ [])
    (hsave : cfg.autoSave = true) :
    (chat llm exec parse cfg msgs0 userMessage).llmCalls = 15 ∧
    (chat llm exec parse cfg msgs0 userMessage).toolRounds = 15 ∧
    LogEvent.maxIterations ∈ (chat llm exec parse cfg msgs0 userMessage).logs ∧
    (chat llm exec parse cfg msgs0 userMessage).savedTranscripts
      = [(chat llm exec parse cfg msgs0 userMessage).messages.drop 1] := by
  unfold chat
  have h := chatLoop_allToolCalls llm exec parse cfg hllm 15
    ⟨msgs0 ++ [⟨"user", some userMessage, [], none⟩], [], [], 0, 0⟩
  exact ⟨h.1, h.2.1, h.2.2.1, by simpa using h.2.2.2 hsave⟩

/-- Witness for C1: a concrete endpoint that always issues one tool
    call. -/
theorem agent_loop_bound_witness :
    (chat (fun _ => LLMResponse.message none [⟨"call-1", "list_files", ""⟩])
        (fun n _ => n) (fun _ => none) ⟨true, true⟩
        [⟨"system", some "sys", [], none⟩] "hi").llmCalls = 15 ∧
    (chat (fun _ => LLMResponse.message none [⟨"call-1", "list_files", ""⟩])
        (fun n _ => n) (fun _ => none) ⟨true, true⟩
        [⟨"system", some "sys", [], none⟩] "hi").toolRounds = 15 ∧
    LogEvent.maxIterations ∈
      (chat (fun _ => LLMResponse.message none [⟨"call-1", "list_files", ""⟩])
        (fun n _ => n) (fun _ => none) ⟨true, true⟩
        [⟨"system", some "sys", [], none⟩] "hi").logs ∧
    (chat (fun _ => LLMResponse.message none [⟨"call-1", "list_files", ""⟩])
        (fun n _ => n) (fun _ => none) ⟨true, true⟩
        [⟨"system", some "sys", [], none⟩] "hi").savedTranscripts
      = [(chat (fun _ => LLMResponse.message none [⟨"call-1", "list_files", ""⟩])
          (fun n _ => n) (fun _ => none) ⟨true, true⟩
          [⟨"system", some "sys", [], none⟩] "hi").messages.drop 1] :=
  agent_loop_bound _ _ _ _ _ _
    (fun _ => ⟨[⟨"call-1", "list_files", ""⟩], rfl, by simp⟩) rfl

/-- **C8** — A tool call whose argument string fails to parse as JSON
    (or is empty) is executed with the empty argument set rather than
    failing the call or aborting the round: the round still appends one
    tool-role message per tool call, and the message for the
    ill-formed call carries the result of executing the tool with the
    empty mapping. -/
theorem malformed_args_empty_set (exec : String → Args → String)
    (parse : String → Option Args) (cfg : ChatConfig) (st : ChatState)
    (tcs : List ToolCall) (tc : ToolCall) (_hmem : tc ∈ tcs)
    (hbad : parse tc.arguments = none ∨ tc.arguments = "") :
    (runToolCalls exec parse cfg st tcs).messages
        = st.messages ++ tcs.map (toolRespMsg exec parse) ∧
    toolRespMsg exec parse tc
        = ⟨"tool", some (exec tc.name []), [], some tc.id⟩ := by
  refine ⟨(runToolCalls_spec exec parse cfg tcs st).1, ?_⟩
  unfold toolRespMsg argsOf
  rcases hbad with h | h
  · by_cases he : tc.arguments = ""
    · rw [if_pos he]
    · rw [if_neg he, h]
      rfl
  · rw [if_pos h]

/-- Witness for C8: a single tool call with unparseable arguments. -/
theorem malformed_args_empty_set_witness :
    (runToolCalls (fun n _ => n) (fun _ => none) ⟨true, true⟩ ⟨[], [], [], 0, 0⟩
        [⟨"id1", "read_file", "oops"⟩]).messages
      = [⟨"tool", some "read_file", [], some "id1"⟩] ∧
    toolRespMsg (fun n _ => n) (fun _ => none) ⟨"id1", "read_file", "oops"⟩
      = ⟨"tool", some "read_file", [], some "id1"⟩ :=
  malformed_args_empty_set (fun n _ => n) (fun _ => none) ⟨true, true⟩
    ⟨[], [], [], 0, 0⟩ [⟨"id1", "read_file", "oops"⟩] ⟨"id1", "read_file", "oops"⟩
    (List.Mem.head _) (Or.inl rfl)

end AIAgent
